import Mathlib

/-!
Verification of the MarketAlert news-pipeline repository.

The Python sources are shallowly embedded here.  Strings are modelled as
`List Char` (a Python `str` is a sequence of code points, which matches
`List Char` exactly; `String` wrappers are used at the boundary).  Python
sets are modelled as lists up to membership.  Calendar dates extracted from
timestamps are modelled as `Nat` day indices.  Calls into external
libraries whose behaviour a claim does not depend on (`urljoin`, the fuzzy
parser of `dateutil`) are taken as oracle parameters.
-/

namespace MarketAlert

/-! ## Generic character/string helpers -/

/-- The characters stripped by Python `str.strip()` (whitespace).  We model
the ASCII whitespace characters, which are the ones occurring in the data
this pipeline handles. -/
def pyWhitespace (c : Char) : Bool :=
  c == ' ' || c == '\t' || c == '\n' || c == '\r' || c == '\x0b' || c == '\x0c'

/-- Python `str.strip()`: drop leading and trailing whitespace. -/
def pyStrip (l : List Char) : List Char :=
  ((l.dropWhile pyWhitespace).reverse.dropWhile pyWhitespace).reverse

/-- Python `str.lower()` for one character, modelled for ASCII: uppercase
letters map to lowercase, all other characters are unchanged.  (Exact for
ASCII data; the scheme characters and exclusion keywords at issue are all
ASCII.) -/
def lowerChar (c : Char) : Char :=
  if 65 ≤ c.toNat ∧ c.toNat ≤ 90 then Char.ofNat (c.toNat + 32) else c

/-- Python `str.lower()` over a whole string. -/
def pyLower (l : List Char) : List Char := l.map lowerChar

/-! ## Identity Normalizer: `normalize_url` (MarketAlert_New_Ex.py lines 37-40)

`normalize_url` calls `urllib.parse.urlparse` and rebuilds the URL with
`urlunparse((scheme, netloc, path, '', '', ''))`.  We embed CPython's
`urlsplit`/`urlunsplit` algorithm.  (`urlparse` additionally splits `;params`
off the path for schemes that use them; `normalize_url` passes `''` for
params, so params are dropped for such URLs.  We model at the `urlsplit`
level, where params remain part of the path; the two differ only on URLs
containing `';'`, which none of the claims exercise.) -/

/-- CPython `urllib.parse.scheme_chars`: ASCII letters, digits, `+`, `-`, `.`. -/
def isSchemeChar (c : Char) : Bool :=
  decide ((48 ≤ c.toNat ∧ c.toNat ≤ 57) ∨ (65 ≤ c.toNat ∧ c.toNat ≤ 90) ∨
    (97 ≤ c.toNat ∧ c.toNat ≤ 122) ∨ c.toNat = 43 ∨ c.toNat = 45 ∨ c.toNat = 46)

/-- ASCII letter test (CPython checks `url[0].isascii() and url[0].isalpha()`). -/
def isAsciiAlphaChar (c : Char) : Bool :=
  decide ((65 ≤ c.toNat ∧ c.toNat ≤ 90) ∨ (97 ≤ c.toNat ∧ c.toNat ≤ 122))

/-- Guard under which CPython `urlsplit` recognises a scheme: the URL
contains `':'`, the part before the first `':'` is non-empty, starts with an
ASCII letter, and consists of scheme characters only. -/
def schemeCond (l : List Char) : Bool :=
  decide (':' ∈ l) &&
    (match l.takeWhile (· != ':') with
     | [] => false
     | c :: _ => isAsciiAlphaChar c) &&
    (l.takeWhile (· != ':')).all isSchemeChar

/-- The (lowercased) scheme extracted by `urlsplit`, or `[]` if none. -/
def schemePart (l : List Char) : List Char :=
  if schemeCond l then (l.takeWhile (· != ':')).map lowerChar else []

/-- The remainder of the URL after the scheme (everything after the first
`':'` when a scheme is recognised, the whole URL otherwise). -/
def afterScheme (l : List Char) : List Char :=
  if schemeCond l then (l.dropWhile (· != ':')).drop 1 else l

/-- Characters that terminate the network-location part (`'/'`, `'?'`, `'#'`):
`notNetlocEnd c` holds when `c` is not one of them. -/
def notNetlocEnd (c : Char) : Bool :=
  !(c == '/') && !(c == '?') && !(c == '#')

/-- The netloc extracted by `urlsplit`: when the post-scheme remainder starts
with `"//"`, the characters after it up to the first `/`, `?` or `#`. -/
def netlocPart (l : List Char) : List Char :=
  if (afterScheme l).take 2 = ['/', '/'] then
    ((afterScheme l).drop 2).takeWhile notNetlocEnd
  else []

/-- The remainder of the URL after scheme and netloc. -/
def afterNetloc (l : List Char) : List Char :=
  if (afterScheme l).take 2 = ['/', '/'] then
    ((afterScheme l).drop 2).dropWhile notNetlocEnd
  else afterScheme l

/-- Everything before the first `'#'` of the post-netloc remainder
(CPython: `url, fragment = url.split('#', 1)`). -/
def beforeFragment (l : List Char) : List Char :=
  (afterNetloc l).takeWhile (· != '#')

/-- The fragment: everything after the first `'#'`, `[]` if there is none. -/
def fragmentPart (l : List Char) : List Char :=
  ((afterNetloc l).dropWhile (· != '#')).drop 1

/-- The path: what is left before the first `'?'`
(CPython: `url, query = url.split('?', 1)`). -/
def pathPart (l : List Char) : List Char :=
  (beforeFragment l).takeWhile (· != '?')

/-- The query: everything after the first `'?'` (and before any `'#'`). -/
def queryPart (l : List Char) : List Char :=
  ((beforeFragment l).dropWhile (· != '?')).drop 1

/-- Result type of `urlsplit`. -/
structure SplitUrl where
  scheme : List Char
  netloc : List Char
  path : List Char
  query : List Char
  fragment : List Char
deriving DecidableEq, Repr

/-- CPython `urllib.parse.urlsplit`, assembled from the stages above. -/
def urlsplitM (l : List Char) : SplitUrl :=
  ⟨schemePart l, netlocPart l, pathPart l, queryPart l, fragmentPart l⟩

/-- The leading-slash adjustment of CPython `urlunsplit`:
`if url and url[:1] != '/': url = '/' + url`. -/
def slashPrep (path : List Char) : List Char :=
  match path with
  | [] => []
  | c :: t => if c == '/' then c :: t else '/' :: c :: t

/-- CPython `urllib.parse.urlunsplit` applied to `(scheme, netloc, path, '', '')`,
which is exactly what `normalize_url` requests (empty params, query and
fragment contribute nothing). -/
def urlunsplitNoQuery (scheme netloc path : List Char) : List Char :=
  let u :=
    if netloc ≠ [] ∨ path.take 2 = ['/', '/'] then '/' :: '/' :: (netloc ++ slashPrep path)
    else path
  if scheme ≠ [] then scheme ++ ':' :: u else u

/-- `normalize_url` from MarketAlert_New_Ex.py lines 37-40: strip query
parameters and fragments, keep scheme, netloc and path. -/
def normalize_url (url : String) : String :=
  ⟨urlunsplitNoQuery (schemePart url.data) (netlocPart url.data) (pathPart url.data)⟩

example : normalize_url "http://example.com/a/b?x=1&y=2#frag" = "http://example.com/a/b" := by decide
example : normalize_url "HTTP://example.com/a" = "http://example.com/a" := by decide
example : normalize_url "//host/p?q" = "//host/p" := by decide
example : normalize_url "relative/path?x=2" = "relative/path" := by decide

/-! ### List helper lemmas -/

theorem takeWhile_append_all {p : Char → Bool} {a : List Char} (b : List Char)
    (h : ∀ x ∈ a, p x = true) : (a ++ b).takeWhile p = a ++ b.takeWhile p := by
  induction a with
  | nil => simp
  | cons c t ih =>
    rw [List.cons_append, List.takeWhile_cons, if_pos (h c (by simp)),
      ih (fun x hx => h x (by simp [hx]))]
    rfl

theorem dropWhile_append_all {p : Char → Bool} {a : List Char} (b : List Char)
    (h : ∀ x ∈ a, p x = true) : (a ++ b).dropWhile p = b.dropWhile p := by
  induction a with
  | nil => simp
  | cons c t ih =>
    simp only [List.cons_append, List.dropWhile_cons, h c (by simp), if_pos]
    exact ih (fun x hx => h x (by simp [hx]))

theorem takeWhile_cons_false {p : Char → Bool} {c : Char} (t : List Char)
    (h : p c = false) : (c :: t).takeWhile p = [] := by
  simp [List.takeWhile_cons, h]

theorem dropWhile_cons_false {p : Char → Bool} {c : Char} (t : List Char)
    (h : p c = false) : (c :: t).dropWhile p = c :: t := by
  simp [List.dropWhile_cons, h]

theorem takeWhile_all_eq {p : Char → Bool} {l : List Char}
    (h : ∀ x ∈ l, p x = true) : l.takeWhile p = l :=
  List.takeWhile_eq_self_iff.mpr h

theorem dropWhile_all_eq {p : Char → Bool} {l : List Char}
    (h : ∀ x ∈ l, p x = true) : l.dropWhile p = [] :=
  List.dropWhile_eq_nil_iff.mpr h

theorem mem_of_mem_takeWhile {p : Char → Bool} {l : List Char} {x : Char}
    (h : x ∈ l.takeWhile p) : x ∈ l :=
  (List.takeWhile_prefix p).subset h

/-- If some element of the prefix `a` fails `p`, then `takeWhile p` does not
look past `a`. -/
theorem takeWhile_eq_of_isPrefix {p : Char → Bool} {a l : List Char}
    (hpre : a <+: l) (h : ∃ x ∈ a, p x = false) : l.takeWhile p = a.takeWhile p := by
  obtain ⟨t, rfl⟩ := hpre
  induction a with
  | nil => simp at h
  | cons c a' ih =>
    by_cases hc : p c = true
    · simp only [List.cons_append, List.takeWhile_cons, hc, if_pos]
      rw [ih]
      obtain ⟨x, hx, hpx⟩ := h
      rcases List.mem_cons.mp hx with rfl | hx'
      · rw [hc] at hpx; cases hpx
      · exact ⟨x, hx', hpx⟩
    · rw [Bool.not_eq_true] at hc
      simp [List.takeWhile_cons, hc]

theorem take_two_slash_iff {l : List Char} :
    l.take 2 = ['/', '/'] ↔ ∃ t, l = '/' :: '/' :: t := by
  constructor
  · intro h
    match l, h with
    | a :: b :: t, h =>
      simp only [List.take, List.cons.injEq] at h
      exact ⟨t, by simp [h.1, h.2.1]⟩
  · rintro ⟨t, rfl⟩
    rfl

theorem take_two_slash_of_append {a : List Char} (t : List Char)
    (h : a.take 2 = ['/', '/']) : (a ++ t).take 2 = ['/', '/'] := by
  obtain ⟨r, rfl⟩ := take_two_slash_iff.mp h
  rfl

/-! ### Character facts -/

theorem toNat_ofNat_valid (n : Nat) (h : n.isValidChar) : (Char.ofNat n).toNat = n := by
  simp [Char.ofNat, h, Char.ofNatAux, Char.toNat, UInt32.toNat]

theorem char_eq_of_toNat_eq {c d : Char} (h : c.toNat = d.toNat) : c = d := by
  rw [← Char.ofNat_toNat c, h, Char.ofNat_toNat]

theorem lowerChar_toNat (c : Char) :
    (lowerChar c).toNat = if 65 ≤ c.toNat ∧ c.toNat ≤ 90 then c.toNat + 32 else c.toNat := by
  unfold lowerChar
  split
  · next h => exact toNat_ofNat_valid _ (Or.inl (by omega))
  · rfl

theorem lowerChar_eq_self {d : Char} (h : ¬ (65 ≤ d.toNat ∧ d.toNat ≤ 90)) :
    lowerChar d = d := by
  unfold lowerChar
  rw [if_neg h]

theorem lowerChar_idem (c : Char) : lowerChar (lowerChar c) = lowerChar c := by
  apply lowerChar_eq_self
  rw [lowerChar_toNat]
  split <;> omega

theorem isSchemeChar_lowerChar {c : Char} (h : isSchemeChar c = true) :
    isSchemeChar (lowerChar c) = true := by
  simp only [isSchemeChar, decide_eq_true_eq] at h ⊢
  rw [lowerChar_toNat]
  split <;> omega

theorem isAsciiAlphaChar_lowerChar {c : Char} (h : isAsciiAlphaChar c = true) :
    isAsciiAlphaChar (lowerChar c) = true := by
  simp only [isAsciiAlphaChar, decide_eq_true_eq] at h ⊢
  rw [lowerChar_toNat]
  split <;> omega

theorem isSchemeChar_bne_colon {c : Char} (h : isSchemeChar c = true) :
    (c != ':') = true := by
  simp only [bne_iff_ne, ne_eq]
  intro hc
  subst hc
  exact absurd h (by decide)

theorem isSchemeChar_notNetlocEnd {c : Char} (h : isSchemeChar c = true) :
    notNetlocEnd c = true := by
  simp only [notNetlocEnd, Bool.and_eq_true, Bool.not_eq_true']
  refine ⟨⟨?_, ?_⟩, ?_⟩ <;>
    · rw [beq_eq_false_iff_ne]
      intro hc
      subst hc
      exact absurd h (by decide)

theorem slash_not_alpha : isAsciiAlphaChar '/' = false := by decide

/-! ### Facts about the parsing stages -/

theorem dropWhile_head_false {p : Char → Bool} {l : List Char} {c : Char} {t : List Char}
    (h : l.dropWhile p = c :: t) : p c = false := by
  have hh := List.head_dropWhile_not p l
  rw [h] at hh
  simpa using hh

/-- Splitting a list at the first occurrence of `c` reassembles to the list. -/
theorem split_at_first_mem {c : Char} : ∀ {l : List Char}, c ∈ l →
    l = l.takeWhile (· != c) ++ c :: ((l.dropWhile (· != c)).drop 1)
  | x :: t, h => by
    by_cases hx : x = c
    · subst hx
      rw [takeWhile_cons_false _ (by simp), dropWhile_cons_false _ (by simp)]
      rfl
    · have hxc : (x != c) = true := by simpa [bne_iff_ne] using hx
      have ht : c ∈ t := by
        rcases List.mem_cons.mp h with h' | h'
        · exact absurd h'.symm hx
        · exact h'
      rw [List.takeWhile_cons, if_pos hxc, List.dropWhile_cons, if_pos hxc]
      exact congrArg (x :: ·) (split_at_first_mem ht)

/-- When `schemeCond` holds, the URL decomposes as scheme part, colon, rest. -/
theorem schemeCond_decomp {l : List Char} (h : schemeCond l = true) :
    l = l.takeWhile (· != ':') ++ ':' :: afterScheme l := by
  have hmem : ':' ∈ l := by
    simp only [schemeCond, Bool.and_eq_true, decide_eq_true_eq] at h
    exact h.1.1
  rw [afterScheme, if_pos h]
  exact split_at_first_mem hmem

theorem schemeCond_parts {l : List Char} (h : schemeCond l = true) :
    ∃ c t, l.takeWhile (· != ':') = c :: t ∧ isAsciiAlphaChar c = true ∧
      (l.takeWhile (· != ':')).all isSchemeChar = true := by
  simp only [schemeCond, Bool.and_eq_true, decide_eq_true_eq] at h
  obtain ⟨⟨_, hhead⟩, hall⟩ := h
  rcases hpre : l.takeWhile (· != ':') with _ | ⟨c, t⟩
  · rw [hpre] at hhead
    cases hhead
  · rw [hpre] at hhead hall
    exact ⟨c, t, rfl, hhead, hall⟩

/-- Invariants of the extracted scheme: nonempty, lowercase scheme characters
with an alphabetic head, fixed by lowercasing. -/
theorem schemePart_inv {l : List Char} (h : schemeCond l = true) :
    (schemePart l).all isSchemeChar = true ∧
      (∃ c t, schemePart l = c :: t ∧ isAsciiAlphaChar c = true) ∧
      (schemePart l).map lowerChar = schemePart l := by
  obtain ⟨c, t, hpre, halpha, hall⟩ := schemeCond_parts h
  rw [schemePart, if_pos h, hpre]
  rw [hpre] at hall
  simp only [List.all_cons, Bool.and_eq_true] at hall
  refine ⟨?_, ⟨lowerChar c, t.map lowerChar, by simp, isAsciiAlphaChar_lowerChar halpha⟩, ?_⟩
  · simp only [List.all_map, List.all_cons, Bool.and_eq_true, Function.comp]
    exact ⟨isSchemeChar_lowerChar hall.1, by
      rw [List.all_eq_true] at hall ⊢
      exact fun x hx => isSchemeChar_lowerChar (hall.2 x hx)⟩
  · simp only [List.map_cons, List.map_map, List.cons.injEq]
    exact ⟨lowerChar_idem c, by
      rw [List.map_eq_map_iff]
      exact fun x _ => lowerChar_idem x⟩

theorem schemePart_ne_nil {l : List Char} (h : schemeCond l = true) :
    schemePart l ≠ [] := by
  obtain ⟨_, ⟨c, t, hs, _⟩, _⟩ := schemePart_inv h
  rw [hs]
  simp

theorem schemePart_eq_nil_iff {l : List Char} : schemePart l = [] ↔ schemeCond l = false := by
  constructor
  · intro h
    by_contra hc
    rw [Bool.not_eq_false] at hc
    exact schemePart_ne_nil hc h
  · intro h
    rw [schemePart, if_neg (by simp [h])]

theorem afterScheme_of_not {l : List Char} (h : schemeCond l = false) :
    afterScheme l = l := by
  rw [afterScheme, if_neg (by simp [h])]

/-- Reattaching a parsed scheme: `urlsplit` recovers exactly the scheme and
the remainder. -/
theorem scheme_reattach {s : List Char} (u : List Char)
    (hall : s.all isSchemeChar = true)
    (hhead : ∃ c t, s = c :: t ∧ isAsciiAlphaChar c = true)
    (hmap : s.map lowerChar = s) :
    schemeCond (s ++ ':' :: u) = true ∧ schemePart (s ++ ':' :: u) = s ∧
      afterScheme (s ++ ':' :: u) = u := by
  rw [List.all_eq_true] at hall
  have hbne : ∀ x ∈ s, (x != ':') = true := fun x hx => isSchemeChar_bne_colon (hall x hx)
  have htw : (s ++ ':' :: u).takeWhile (· != ':') = s := by
    rw [takeWhile_append_all _ hbne, takeWhile_cons_false _ (by simp), List.append_nil]
  have hdw : (s ++ ':' :: u).dropWhile (· != ':') = ':' :: u := by
    rw [dropWhile_append_all _ hbne, dropWhile_cons_false _ (by simp)]
  obtain ⟨c, t, hs, hc⟩ := hhead
  have hcond : schemeCond (s ++ ':' :: u) = true := by
    simp only [schemeCond, Bool.and_eq_true, decide_eq_true_eq, htw]
    subst hs
    refine ⟨⟨by simp, hc⟩, ?_⟩
    rw [List.all_eq_true]
    exact hall
  refine ⟨hcond, ?_, ?_⟩
  · rw [schemePart, if_pos hcond, htw, hmap]
  · rw [afterScheme, if_pos hcond, hdw, List.drop_one, List.tail_cons]

/-- A URL whose head is not an ASCII letter (or which is empty) has no scheme. -/
theorem schemeCond_false_of_head {u : List Char}
    (h : ∀ c t, u = c :: t → isAsciiAlphaChar c = false) : schemeCond u = false := by
  rcases u with _ | ⟨c, t⟩
  · rfl
  · by_cases hc : (c == ':') = true
    · have hcc : c = ':' := eq_of_beq hc
      subst hcc
      have htw : (':' :: t).takeWhile (· != ':') = [] := takeWhile_cons_false t (by simp)
      simp [schemeCond, htw]
    · have hbne : (c != ':') = true := by simp [bne, hc]
      have htw : (c :: t).takeWhile (· != ':') = c :: t.takeWhile (· != ':') := by
        rw [List.takeWhile_cons, if_pos hbne]
      unfold schemeCond
      rw [htw]
      simp [h c t rfl]

/-- A scheme is never recognised in a prefix if it is not recognised in the
whole string. -/
theorem schemeCond_false_of_isPrefix {p l : List Char} (hpre : p <+: l)
    (h : schemeCond l = false) : schemeCond p = false := by
  by_contra hc
  rw [Bool.not_eq_false] at hc
  simp only [schemeCond, Bool.and_eq_true, decide_eq_true_eq] at hc
  obtain ⟨⟨hmem, hhead⟩, hall⟩ := hc
  have htw : l.takeWhile (· != ':') = p.takeWhile (· != ':') :=
    takeWhile_eq_of_isPrefix hpre ⟨':', hmem, by simp⟩
  have : schemeCond l = true := by
    simp only [schemeCond, Bool.and_eq_true, decide_eq_true_eq, htw]
    exact ⟨⟨hpre.subset hmem, hhead⟩, hall⟩
  rw [h] at this
  cases this

/-- Netloc and path reattach: when the netloc has no terminator characters
and the path is empty or starts with `'/'`, `takeWhile`/`dropWhile` recover
them from their concatenation. -/
theorem netloc_extract {n : List Char} (p : List Char)
    (hn : n.all notNetlocEnd = true) (hp : p = [] ∨ ∃ t, p = '/' :: t) :
    (n ++ p).takeWhile notNetlocEnd = n ∧ (n ++ p).dropWhile notNetlocEnd = p := by
  rw [List.all_eq_true] at hn
  rcases hp with rfl | ⟨t, rfl⟩
  · rw [List.append_nil]
    exact ⟨takeWhile_all_eq hn, dropWhile_all_eq hn⟩
  · rw [takeWhile_append_all _ hn, dropWhile_append_all _ hn,
      takeWhile_cons_false _ (by decide), dropWhile_cons_false _ (by decide),
      List.append_nil]
    exact ⟨rfl, rfl⟩

/-- When `c` does not occur, splitting at `c` is the identity with empty tail. -/
theorem splitFirst_none {c : Char} {p : List Char} (h : c ∉ p) :
    p.takeWhile (· != c) = p ∧ ((p.dropWhile (· != c)).drop 1) = [] := by
  have hall : ∀ x ∈ p, (x != c) = true := by
    intro x hx
    rw [bne_iff_ne]
    rintro rfl
    exact h hx
  exact ⟨takeWhile_all_eq hall, by rw [dropWhile_all_eq hall]; rfl⟩

/-- Given the post-scheme remainder `"//" ++ netloc ++ path` with the parse
invariants, the remaining `urlsplit` stages recover netloc and path exactly,
with empty query and fragment. -/
theorem urlsplit_stages_netloc {u n p : List Char}
    (hA : afterScheme u = '/' :: '/' :: (n ++ p))
    (hn : n.all notNetlocEnd = true)
    (hp : p = [] ∨ ∃ t, p = '/' :: t)
    (hpf : '#' ∉ p) (hpq : '?' ∉ p) :
    netlocPart u = n ∧ pathPart u = p ∧ queryPart u = [] ∧ fragmentPart u = [] := by
  have h2 : (afterScheme u).take 2 = ['/', '/'] := by rw [hA]; rfl
  have hdrop : (afterScheme u).drop 2 = n ++ p := by rw [hA]; rfl
  obtain ⟨htw, hdw⟩ := netloc_extract p hn hp
  have hnl : netlocPart u = n := by rw [netlocPart, if_pos h2, hdrop, htw]
  have han : afterNetloc u = p := by rw [afterNetloc, if_pos h2, hdrop, hdw]
  obtain ⟨hbf, hfr⟩ := splitFirst_none hpf
  obtain ⟨hpt, hqu⟩ := splitFirst_none hpq
  refine ⟨hnl, ?_, ?_, ?_⟩
  · rw [pathPart, beforeFragment, han, hbf, hpt]
  · rw [queryPart, beforeFragment, han, hbf, hqu]
  · rw [fragmentPart, han, hfr]

/-- Post-scheme remainder equal to the path (no netloc case): the remaining
stages yield an empty netloc, the path itself, and empty query/fragment. -/
theorem urlsplit_stages_nonetloc {u p : List Char}
    (hA : afterScheme u = p) (h2 : ¬ p.take 2 = ['/', '/'])
    (hpf : '#' ∉ p) (hpq : '?' ∉ p) :
    netlocPart u = [] ∧ pathPart u = p ∧ queryPart u = [] ∧ fragmentPart u = [] := by
  have h2' : ¬ (afterScheme u).take 2 = ['/', '/'] := by rw [hA]; exact h2
  have han : afterNetloc u = p := by rw [afterNetloc, if_neg h2', hA]
  obtain ⟨hbf, hfr⟩ := splitFirst_none hpf
  obtain ⟨hpt, hqu⟩ := splitFirst_none hpq
  refine ⟨by rw [netlocPart, if_neg h2'], ?_, ?_, ?_⟩
  · rw [pathPart, beforeFragment, han, hbf, hpt]
  · rw [queryPart, beforeFragment, han, hbf, hqu]
  · rw [fragmentPart, han, hfr]

/-- The leading-slash adjustment of `urlunsplit` is the identity on an empty
path or one that already starts with `'/'`. -/
theorem slashPrep_eq {p : List Char} (hp : p = [] ∨ ∃ t, p = '/' :: t) :
    slashPrep p = p := by
  rcases hp with rfl | ⟨t, rfl⟩
  · rfl
  · simp [slashPrep]

/-- Rebuilding a URL from parsed components and parsing it again yields the
same scheme, netloc and path and empty query and fragment, provided the
components satisfy the invariants that an actual parse guarantees. -/
theorem unsplit_then_split {s n p : List Char}
    (hs : s = [] ∨ (s.all isSchemeChar = true ∧
      (∃ c t, s = c :: t ∧ isAsciiAlphaChar c = true) ∧ s.map lowerChar = s))
    (hn : n.all notNetlocEnd = true)
    (hpf : '#' ∉ p) (hpq : '?' ∉ p)
    (hph : (n ≠ [] ∨ p.take 2 = ['/', '/']) → p = [] ∨ ∃ t, p = '/' :: t)
    (hnp : ¬ (n ≠ [] ∨ p.take 2 = ['/', '/']) → s = [] → schemeCond p = false) :
    urlsplitM (urlunsplitNoQuery s n p) = ⟨s, n, p, [], []⟩ := by
  by_cases hcond : n ≠ [] ∨ p.take 2 = ['/', '/']
  · -- netloc branch of urlunsplit
    have hu : urlunsplitNoQuery s n p =
        (if s ≠ [] then s ++ ':' :: ('/' :: '/' :: (n ++ p)) else '/' :: '/' :: (n ++ p)) := by
      unfold urlunsplitNoQuery
      simp only [if_pos hcond, slashPrep_eq (hph hcond)]
    have hslash : ∀ c t, ('/' :: '/' :: (n ++ p) : List Char) = c :: t →
        isAsciiAlphaChar c = false := by
      intro c t hct
      cases hct
      exact slash_not_alpha
    rcases hs with rfl | ⟨hall, hhead, hmap⟩
    · rw [hu, if_neg (by simp)]
      have hsc : schemeCond ('/' :: '/' :: (n ++ p)) = false :=
        schemeCond_false_of_head hslash
      have hA : afterScheme ('/' :: '/' :: (n ++ p)) = '/' :: '/' :: (n ++ p) :=
        afterScheme_of_not hsc
      obtain ⟨h1, h2, h3, h4⟩ := urlsplit_stages_netloc hA hn (hph hcond) hpf hpq
      rw [urlsplitM, schemePart_eq_nil_iff.mpr hsc, h1, h2, h3, h4]
    · obtain ⟨c, t, hs', _⟩ := hhead
      have hsne : s ≠ [] := by rw [hs']; simp
      rw [hu, if_pos hsne]
      obtain ⟨_, hsp, hA⟩ := scheme_reattach ('/' :: '/' :: (n ++ p)) hall ⟨c, t, hs', ‹_›⟩ hmap
      obtain ⟨h1, h2, h3, h4⟩ := urlsplit_stages_netloc hA hn (hph hcond) hpf hpq
      rw [urlsplitM, hsp, h1, h2, h3, h4]
  · -- plain-path branch of urlunsplit
    have hn0 : n = [] := by
      by_contra hne
      exact hcond (Or.inl hne)
    have hp2 : ¬ p.take 2 = ['/', '/'] := fun h2 => hcond (Or.inr h2)
    have hu : urlunsplitNoQuery s n p = (if s ≠ [] then s ++ ':' :: p else p) := by
      unfold urlunsplitNoQuery
      simp only [if_neg hcond]
    rcases hs with rfl | ⟨hall, hhead, hmap⟩
    · rw [hu, if_neg (by simp)]
      have hsc : schemeCond p = false := hnp hcond rfl
      have hA : afterScheme p = p := afterScheme_of_not hsc
      obtain ⟨h1, h2, h3, h4⟩ := urlsplit_stages_nonetloc hA hp2 hpf hpq
      rw [urlsplitM, schemePart_eq_nil_iff.mpr hsc, h1, h2, h3, h4, hn0]
    · obtain ⟨c, t, hs', hca⟩ := hhead
      have hsne : s ≠ [] := by rw [hs']; simp
      rw [hu, if_pos hsne]
      obtain ⟨_, hsp, hA⟩ := scheme_reattach p hall ⟨c, t, hs', hca⟩ hmap
      obtain ⟨h1, h2, h3, h4⟩ := urlsplit_stages_nonetloc hA hp2 hpf hpq
      rw [urlsplitM, hsp, h1, h2, h3, h4, hn0]

/-! ### The parse really establishes those invariants -/

theorem schemePart_spec (l : List Char) :
    schemePart l = [] ∨ ((schemePart l).all isSchemeChar = true ∧
      (∃ c t, schemePart l = c :: t ∧ isAsciiAlphaChar c = true) ∧
      (schemePart l).map lowerChar = schemePart l) := by
  by_cases h : schemeCond l = true
  · exact Or.inr (schemePart_inv h)
  · rw [Bool.not_eq_true] at h
    exact Or.inl (schemePart_eq_nil_iff.mpr h)

theorem netlocPart_all (l : List Char) : (netlocPart l).all notNetlocEnd = true := by
  rw [netlocPart]
  split
  · rw [List.all_eq_true]
    exact fun x hx => List.mem_takeWhile_imp hx
  · rfl

theorem pathPart_isPrefix_afterNetloc (l : List Char) : pathPart l <+: afterNetloc l :=
  (List.takeWhile_prefix _).trans (List.takeWhile_prefix _)

theorem pathPart_not_mem (l : List Char) : '#' ∉ pathPart l ∧ '?' ∉ pathPart l := by
  constructor
  · intro h
    have h1 : '#' ∈ beforeFragment l := mem_of_mem_takeWhile h
    have := List.mem_takeWhile_imp h1
    simp at this
  · intro h
    have := List.mem_takeWhile_imp h
    simp at this

theorem notNetlocEnd_false_cases {c : Char} (h : notNetlocEnd c = false) :
    c = '/' ∨ c = '?' ∨ c = '#' := by
  simp only [notNetlocEnd, Bool.and_eq_false_iff, Bool.not_eq_false'] at h
  rcases h with (h | h) | h
  · exact Or.inl (eq_of_beq h)
  · exact Or.inr (Or.inl (eq_of_beq h))
  · exact Or.inr (Or.inr (eq_of_beq h))

/-- In the netloc branch of the parse the path is empty or starts with a
slash: the characters after the netloc start with `/`, `?` or `#`, and the
fragment/query splits erase the path in the latter two cases. -/
theorem pathPart_head (l : List Char) (h2 : (afterScheme l).take 2 = ['/', '/']) :
    pathPart l = [] ∨ ∃ t, pathPart l = '/' :: t := by
  have han : afterNetloc l = ((afterScheme l).drop 2).dropWhile notNetlocEnd := by
    rw [afterNetloc, if_pos h2]
  rcases hcase : afterNetloc l with _ | ⟨c, t⟩
  · left
    rw [pathPart, beforeFragment, hcase]
    rfl
  · have hc : notNetlocEnd c = false := by
      rw [han] at hcase
      exact dropWhile_head_false hcase
    rcases notNetlocEnd_false_cases hc with rfl | rfl | rfl
    · right
      rw [pathPart, beforeFragment, hcase, List.takeWhile_cons, if_pos (by decide),
        List.takeWhile_cons, if_pos (by decide)]
      exact ⟨_, rfl⟩
    · left
      rw [pathPart, beforeFragment, hcase, List.takeWhile_cons, if_pos (by decide),
        takeWhile_cons_false _ (by decide)]
    · left
      rw [pathPart, beforeFragment, hcase, takeWhile_cons_false _ (by decide)]
      rfl

theorem pathPart_no_slashes (l : List Char) (h2 : ¬ (afterScheme l).take 2 = ['/', '/']) :
    ¬ (pathPart l).take 2 = ['/', '/'] := by
  intro hp
  apply h2
  have han : afterNetloc l = afterScheme l := by rw [afterNetloc, if_neg h2]
  have hpre : pathPart l <+: afterScheme l := han ▸ pathPart_isPrefix_afterNetloc l
  obtain ⟨t, hpt⟩ := take_two_slash_iff.mp hp
  obtain ⟨r, hr⟩ := hpre
  rw [hpt] at hr
  rw [← hr]
  rfl

/-- The central round-trip fact: re-parsing the normalized URL recovers the
original scheme, netloc and path, with empty query and fragment. -/
theorem urlsplit_roundtrip (l : List Char) :
    urlsplitM (urlunsplitNoQuery (schemePart l) (netlocPart l) (pathPart l)) =
      ⟨schemePart l, netlocPart l, pathPart l, [], []⟩ := by
  apply unsplit_then_split (schemePart_spec l) (netlocPart_all l)
    (pathPart_not_mem l).1 (pathPart_not_mem l).2
  · intro hcond
    have h2 : (afterScheme l).take 2 = ['/', '/'] := by
      rcases hcond with hne | hp2
      · by_contra h2
        exact hne (by rw [netlocPart, if_neg h2])
      · by_contra h2
        exact pathPart_no_slashes l h2 hp2
    exact pathPart_head l h2
  · intro hcond hs
    by_cases h2 : (afterScheme l).take 2 = ['/', '/']
    · apply schemeCond_false_of_head
      intro c t hct
      rcases pathPart_head l h2 with hnil | ⟨t', hslash⟩
      · rw [hnil] at hct
        cases hct
      · rw [hslash] at hct
        cases hct
        exact slash_not_alpha
    · have hsc : schemeCond l = false := by
        by_contra hc
        rw [Bool.not_eq_false] at hc
        exact schemePart_ne_nil hc hs
      have han : afterNetloc l = afterScheme l := by rw [afterNetloc, if_neg h2]
      have hal : afterScheme l = l := afterScheme_of_not hsc
      have hpre : pathPart l <+: l := by
        have := pathPart_isPrefix_afterNetloc l
        rwa [han, hal] at this
      exact schemeCond_false_of_isPrefix hpre hsc

/-- C6: for all links with identical scheme, host and path but different
query strings or fragment identifiers, `normalize_url` yields the same
result, and that result preserves the scheme, host and path of the input
while containing no query string and no fragment. -/
theorem claim_C6_normalize_url :
    (∀ u₁ u₂ : String,
      schemePart u₁.data = schemePart u₂.data →
      netlocPart u₁.data = netlocPart u₂.data →
      pathPart u₁.data = pathPart u₂.data →
      normalize_url u₁ = normalize_url u₂) ∧
    (∀ u : String,
      urlsplitM (normalize_url u).data =
        ⟨schemePart u.data, netlocPart u.data, pathPart u.data, [], []⟩) := by
  constructor
  · intro u₁ u₂ hs hn hp
    rw [normalize_url, normalize_url, hs, hn, hp]
  · intro u
    exact urlsplit_roundtrip u.data

/-- Witness for C6: two URLs differing only in query and fragment normalize
identically, and re-parsing the result gives back scheme/netloc/path with no
query and no fragment. -/
theorem claim_C6_normalize_url_witness :
    normalize_url "https://ex.com/news/item?utm=1&id=7#top" =
      normalize_url "https://ex.com/news/item?id=9" ∧
    urlsplitM (normalize_url "https://ex.com/news/item?utm=1&id=7#top").data =
      ⟨"https".data, "ex.com".data, "/news/item".data, [], []⟩ := by
  constructor
  · exact claim_C6_normalize_url.1 _ _ (by decide) (by decide) (by decide)
  · rw [claim_C6_normalize_url.2 "https://ex.com/news/item?utm=1&id=7#top"]
    decide

/-! ## Pipeline Orchestrator: `process_source`

`process_source` of MarketAlert_New_Ex.py (lines 207-239) and of
MarketAlert.py (lines 241-283).  The scraped input, the stored identity
set and today's calendar day are parameters; the returned pair is the list
of articles passed to the Notifier (`send_to_telegram` is called once per
element, in order) and the identity set written back by `write_sent_ids`
(a Python set, modelled as a list up to membership). -/

/-- An article record as produced by `scrape_news`: `pubDateDay` models the
calendar day `datetime.fromisoformat(item['pubDate']).date()`. -/
structure Item where
  title : String
  link : String
  description : String
  pubDateDay : Nat
deriving DecidableEq, Repr

/-- The exclusion keywords hard-coded in `process_source`. -/
def exclude_keywords : List String :=
  ["KR Choksey", "Lilladher", "motilal", "ICICI Securities", "Sharekhan",
   "straight session", "Anand Rathi", "Emkay"]

/-- The keyword test of MarketAlert_New_Ex.py lines 220-224: some exclusion
keyword occurs (case-insensitively) in the title or in the description. -/
def containsKeyword (title description : String) : Bool :=
  exclude_keywords.any (fun kw =>
    decide (pyLower kw.data <:+: pyLower title.data) ||
    decide (pyLower kw.data <:+: pyLower description.data))

/-- Stage `new_items` of MarketAlert_New_Ex.py line 217: keep items whose
parsed `pubDate` falls on today. -/
def ex_new_items (items : List Item) (today : Nat) : List Item :=
  items.filter (fun it => it.pubDateDay == today)

/-- Stage `filtered_items` of lines 219-224: drop keyword-excluded items. -/
def ex_filtered_items (items : List Item) (today : Nat) : List Item :=
  (ex_new_items items today).filter (fun it => !containsKeyword it.title it.description)

/-- Stage `new_items_to_send` of line 226: drop items whose normalized link
is already in the identity store. -/
def ex_to_send (sent_ids : List String) (items : List Item) (today : Nat) : List Item :=
  (ex_filtered_items items today).filter
    (fun it => decide (normalize_url it.link ∉ sent_ids))

/-- `process_source` of MarketAlert_New_Ex.py, assembled from the stages:
deliver `new_items_to_send` in order, and persist the union of identities
(the store file is written only when something was sent; otherwise it is
left untouched, so the stored set is the same either way). -/
def process_source_Ex (sent_ids : List String) (items : List Item) (today : Nat) :
    List Item × List String :=
  if items ≠ [] then
    if ex_to_send sent_ids items today ≠ [] then
      (ex_to_send sent_ids items today,
       sent_ids ++ (ex_to_send sent_ids items today).map (fun it => normalize_url it.link))
    else ([], sent_ids)
  else ([], sent_ids)

/-- `process_source` of MarketAlert.py (non-RSS source): the date filter is
disabled (`new_items = items  # Temporarily disable date filtering`), the
keyword filter is commented out (`filtered_items = new_items  # Temporarily
disable keyword filtering`), and the dedup key is `item.get('guid',
item['link'])`, which is the link because both scrapers set `guid = link`. -/
def process_source_MA (sent_ids : List String) (items : List Item) :
    List Item × List String :=
  if items ≠ [] then
    let new_items_to_send := items.filter (fun it => decide (it.link ∉ sent_ids))
    if new_items_to_send ≠ [] then
      (new_items_to_send, sent_ids ++ new_items_to_send.map (fun it => it.link))
    else ([], sent_ids)
  else ([], sent_ids)

/-- Two scraped records of the same story re-served with different tracking
query parameters: their identities coincide. -/
def c1itemA : Item := ⟨"Story", "http://ex.com/story?id=1", "d1", 0⟩

def c1itemB : Item := ⟨"Story again", "http://ex.com/story?id=2", "d2", 0⟩

/-- C1 counterexample: the dedup filter checks only the identity store
loaded at the start of the run, not identities delivered earlier in the
same run, so one run delivers the same normalized identity twice when the
scraped input repeats it.  The second run delivers nothing, but the total
across the two runs is 2, not at most 1. -/
theorem claim_C1_counterexample :
    normalize_url c1itemA.link = normalize_url c1itemB.link ∧
    ((process_source_Ex [] [c1itemA, c1itemB] 0).1 ++
      (process_source_Ex (process_source_Ex [] [c1itemA, c1itemB] 0).2
        [c1itemA, c1itemB] 0).1).countP
      (fun it => normalize_url it.link == normalize_url c1itemA.link) = 2 := by
  decide

/-- C1 amended: every identity delivered in the first run is in the store
written by that run, and a second run on identical input delivers nothing;
within a single run, however, an identity may be delivered more than once
when the scraped input repeats it. -/
theorem claim_C1_amended (sent_ids : List String) (items : List Item) (today : Nat) :
    (∀ it ∈ (process_source_Ex sent_ids items today).1,
      normalize_url it.link ∈ (process_source_Ex sent_ids items today).2) ∧
    (process_source_Ex (process_source_Ex sent_ids items today).2 items today).1 = [] := by
  by_cases hne : items ≠ []
  · by_cases ht : ex_to_send sent_ids items today ≠ []
    · have hr1 : process_source_Ex sent_ids items today =
          (ex_to_send sent_ids items today,
           sent_ids ++ (ex_to_send sent_ids items today).map (fun it => normalize_url it.link)) := by
        rw [process_source_Ex, if_pos hne, if_pos ht]
      rw [hr1]
      constructor
      · intro it hit
        apply List.mem_append_right
        exact List.mem_map_of_mem _ hit
      · have h2 : ex_to_send (sent_ids ++
            (ex_to_send sent_ids items today).map (fun it => normalize_url it.link))
            items today = [] := by
          rw [ex_to_send, List.filter_eq_nil_iff]
          intro it hit
          simp only [decide_eq_true_eq, Bool.not_eq_true, decide_eq_false_iff_not, not_not]
          by_cases hmem : normalize_url it.link ∈ sent_ids
          · exact List.mem_append_left _ hmem
          · apply List.mem_append_right
            apply List.mem_map_of_mem
            rw [ex_to_send, List.mem_filter]
            exact ⟨hit, by simpa using hmem⟩
        rw [process_source_Ex, if_pos hne, if_neg (by rw [h2]; simp)]
    · rw [not_not] at ht
      have hr1 : process_source_Ex sent_ids items today = ([], sent_ids) := by
        rw [process_source_Ex, if_pos hne, if_neg (by rw [ht]; simp)]
      rw [hr1]
      refine ⟨by simp, ?_⟩
      rw [process_source_Ex, if_pos hne, if_neg (by rw [ht]; simp)]
  · rw [not_not] at hne
    subst hne
    exact ⟨by simp [process_source_Ex], by simp [process_source_Ex]⟩

/-- Witness for the amended C1 statement at a concrete run. -/
theorem claim_C1_amended_witness :
    normalize_url c1itemA.link ∈ (process_source_Ex [] [c1itemA] 0).2 ∧
    (process_source_Ex (process_source_Ex [] [c1itemA] 0).2 [c1itemA] 0).1 = [] :=
  ⟨(claim_C1_amended [] [c1itemA] 0).1 c1itemA (by decide),
   (claim_C1_amended [] [c1itemA] 0).2⟩

/-- In MarketAlert_New_Ex.py the exclusion-keyword filter does hold: no
delivered article contains an excluded keyword. -/
theorem process_source_Ex_keyword_filter (sent_ids : List String) (items : List Item)
    (today : Nat) :
    ∀ it ∈ (process_source_Ex sent_ids items today).1,
      containsKeyword it.title it.description = false := by
  intro it hit
  rw [process_source_Ex] at hit
  split at hit
  · split at hit
    · have h1 := (List.mem_filter.mp hit).1
      have h2 := (List.mem_filter.mp h1).2
      simpa using h2
    · simp at hit
  · simp at hit

/-- An article whose title contains the excluded keyword `"motilal"`. -/
def c9item : Item := ⟨"Motilal Oswal initiates coverage", "https://ex.com/mo", "desc", 0⟩

/-- C9 evaluated on MarketAlert.py `process_source`: the keyword filter is
commented out there (`filtered_items = new_items  # Temporarily disable
keyword filtering`), so an article containing an excluded keyword is
delivered to the Notifier. -/
theorem claim_C9_keyword_reaches_notifier :
    containsKeyword c9item.title c9item.description = true ∧
    (process_source_MA [] [c9item]).1 = [c9item] := by decide

/-! ## Archive Store: `create_or_update_json_feed`

MarketAlert_New_Ex.py lines 120-166 and MarketAlert.py lines 164-198.
`existing = none` models a missing, undecodable or structurally invalid
archive file (all treated as an empty item list, with a warning);
`pubDateDay` is the calendar day of the item's parsed `pubDate` (we model
items whose `pubDate` parses; existing items that fail to parse are skipped
by the same filter).  The functions return the `items` array written back. -/

/-- An archive item: `tag` stands for the payload fields, `pubDateDay` for
`parse(item['pubDate']).date()`. -/
structure AItem where
  tag : String
  pubDateDay : Nat
deriving DecidableEq, Repr

/-- `create_or_update_json_feed` of MarketAlert_New_Ex.py: existing items
are pruned to today, incoming items are filtered to today (line 149), and
the result is existing-then-new. -/
def create_or_update_json_feed_Ex (existing : Option (List AItem)) (items : List AItem)
    (today : Nat) : List AItem :=
  let existing_items :=
    match existing with
    | none => []
    | some xs => xs.filter (fun it => it.pubDateDay == today)
  let new_items := items.filter (fun it => it.pubDateDay == today)
  existing_items ++ new_items

/-- `create_or_update_json_feed` of MarketAlert.py: existing items are
pruned to today, but the incoming items are NOT filtered
(`new_items = items  # Temporarily process all items for debugging`). -/
def create_or_update_json_feed_MA (existing : Option (List AItem)) (items : List AItem)
    (today : Nat) : List AItem :=
  let existing_items :=
    match existing with
    | none => []
    | some xs => xs.filter (fun it => it.pubDateDay == today)
  let new_items := items
  existing_items ++ new_items

/-- The spec's archive-merge scenario holds for the MarketAlert_New_Ex.py
variant: 2 today-items and 3 yesterday-items in the archive plus 1 new
today-item give exactly 3 items, none from yesterday. -/
theorem create_or_update_json_feed_Ex_scenario :
    create_or_update_json_feed_Ex
      (some [⟨"t1", 5⟩, ⟨"y1", 4⟩, ⟨"t2", 5⟩, ⟨"y2", 4⟩, ⟨"y3", 4⟩]) [⟨"n1", 5⟩] 5 =
      [⟨"t1", 5⟩, ⟨"t2", 5⟩, ⟨"n1", 5⟩] := by decide

/-- C2 evaluated on MarketAlert.py `create_or_update_json_feed` at the
failing input: a new item dated yesterday is written into the archive
although the claim says new items are filtered to today. -/
theorem claim_C2_archive_merge_bug :
    create_or_update_json_feed_MA (some []) [⟨"y", 4⟩] 5 = [⟨"y", 4⟩] ∧
    (⟨"y", 4⟩ : AItem).pubDateDay ≠ 5 := by decide

/-! ## Notifier: `send_telegram` (NewMA.py lines 95-142)

We model the payload constructed for the first delivery attempt: an
image-with-caption payload (`sendPhoto` with `caption[:1024]`) when
`article.get("image")` is set, a text payload (`sendMessage` with
`caption[:4096]`) otherwise.  The plain-text retry on a 400 response slices
the unformatted caption with the same limits and is not at issue here. -/

/-- The fixed watermark suffix (NewMA.py line 22). -/
def WATERMARK : List Char := "@Stock_Market_News_Buzz".data

/-- The characters escaped by `escape_markdown_v2` (NewMA.py line 41).
The backtick and the braces are written via their code points. -/
def special_chars : List Char :=
  ['_', '*', '[', ']', '(', ')', '~', Char.ofNat 96, '>', '#', '+', '-', '=', '|',
   Char.ofNat 123, Char.ofNat 125, '.', '!']

/-- `escape_markdown_v2`: each special character is prefixed with a
backslash.  (The Python code applies one `replace` per character in
sequence; since every inserted string is a backslash—never itself
replaced—followed by the character just handled, and the characters in the
list are pairwise distinct, this equals the single left-to-right pass.) -/
def escape_markdown_v2 (l : List Char) : List Char :=
  l.flatMap (fun c => if c ∈ special_chars then ['\\', c] else [c])

/-- An article as handled by NewMA.py: dictionary fields accessed with
`.get`, so each is optional.  (`source_name` and `published` are escaped by
`send_telegram` but never used in the caption, so they are omitted.) -/
structure NArticle where
  title : Option String
  description : Option String
  image : Option String

/-- The caption body before the watermark:
`f"*{title}*\n\n{desc}\n\n"` with title and description escaped. -/
def caption_body (a : NArticle) : List Char :=
  "*".data ++ escape_markdown_v2 (a.title.getD "No Title").data ++ "*\n\n".data ++
    escape_markdown_v2 (a.description.getD "").data ++ "\n\n".data

/-- The full caption `f"*{title}*\n\n{desc}\n\n{WATERMARK}"`. -/
def caption_full (a : NArticle) : List Char :=
  caption_body a ++ WATERMARK

/-- The payload posted to the Telegram API. -/
inductive Payload where
  | photo (image : String) (caption : List Char)
  | text (body : List Char)

/-- The caption/body carried by a payload. -/
def payloadCaption : Payload → List Char
  | .photo _ c => c
  | .text c => c

/-- The payload built by `send_telegram` for its first attempt:
`caption[:1024]` with an image, `caption[:4096]` without. -/
def send_telegram_payload (a : NArticle) : Payload :=
  match a.image with
  | some img => .photo img ((caption_full a).take 1024)
  | none => .text ((caption_full a).take 4096)

/-- An article with an image whose escaped caption exceeds 1024 characters
(description of 2000 characters). -/
def c3article : NArticle :=
  ⟨some "T", some (String.mk (List.replicate 2000 'a')), some "https://img.example/i.jpg"⟩

/-- C3 counterexample: with a 2000-character description and an image, the
caption is truncated to 1024 characters but the watermark is appended
before the truncation, so the truncated caption does not contain the
watermark at all—contradicting "includes the fixed watermark suffix". -/
theorem escape_markdown_v2_id {l : List Char} (h : ∀ c ∈ l, c ∉ special_chars) :
    escape_markdown_v2 l = l := by
  induction l with
  | nil => rfl
  | cons c t ih =>
    rw [escape_markdown_v2, List.flatMap_cons, if_neg (h c (by simp))]
    rw [escape_markdown_v2] at ih
    rw [ih (fun x hx => h x (by simp [hx]))]
    rfl

theorem c3_caption_eval :
    payloadCaption (send_telegram_payload c3article) =
      "*T*\n\n".data ++ List.replicate 1019 'a' := by
  have hesc : escape_markdown_v2 (List.replicate 2000 'a') = List.replicate 2000 'a' :=
    escape_markdown_v2_id (fun c hc => by
      rw [List.eq_of_mem_replicate hc]
      decide)
  have hcap : caption_full c3article =
      "*T*\n\n".data ++ (List.replicate 2000 'a' ++ ("\n\n".data ++ WATERMARK)) := by
    rw [caption_full, caption_body]
    show "*".data ++ escape_markdown_v2 "T".data ++ "*\n\n".data ++
        escape_markdown_v2 (List.replicate 2000 'a') ++ "\n\n".data ++ WATERMARK = _
    rw [hesc, escape_markdown_v2_id (by decide)]
    rw [show ("*T*\n\n".data : List Char) = "*".data ++ "T".data ++ "*\n\n".data from by decide]
    simp only [List.append_assoc]
  have hp : payloadCaption (send_telegram_payload c3article) =
      (caption_full c3article).take 1024 := rfl
  rw [hp, hcap, List.take_append_eq_append_take, List.take_append_eq_append_take]
  have h5 : ("*T*\n\n".data : List Char).length = 5 := by decide
  rw [List.take_replicate, h5]
  have ht5 : ("*T*\n\n".data : List Char).take 1024 = "*T*\n\n".data := by decide
  rw [ht5]
  have hrl : (List.replicate 2000 'a' : List Char).length = 2000 := List.length_replicate 2000 'a'
  rw [hrl]
  norm_num

/-- C3 counterexample: with a 2000-character description and an image, the
caption is truncated to 1024 characters but the watermark is appended
before the truncation, so the truncated caption does not contain the
watermark at all—contradicting "includes the fixed watermark suffix". -/
theorem claim_C3_counterexample :
    (payloadCaption (send_telegram_payload c3article)).length = 1024 ∧
    ¬ WATERMARK <:+: payloadCaption (send_telegram_payload c3article) := by
  rw [c3_caption_eval]
  constructor
  · rw [List.length_append, List.length_replicate]
    decide
  · intro hinf
    have hat : '@' ∈ "*T*\n\n".data ++ List.replicate 1019 'a' :=
      hinf.subset (by decide)
    rw [List.mem_append] at hat
    rcases hat with h | h
    · exact absurd h (by decide)
    · exact absurd (List.eq_of_mem_replicate h) (by decide)

/-- C3 amended: the image caption is the full caption (escaped title,
escaped summary, watermark) truncated to its first 1024 characters — so at
most 1024 characters, with the watermark present exactly when the full
caption fits; the text payload is likewise truncated to 4096 characters. -/
theorem claim_C3_amended (a : NArticle) :
    (a.image.isSome = true →
      (payloadCaption (send_telegram_payload a)).length ≤ 1024 ∧
      ((caption_full a).length ≤ 1024 →
        WATERMARK <:+ payloadCaption (send_telegram_payload a))) ∧
    (a.image = none →
      (payloadCaption (send_telegram_payload a)).length ≤ 4096 ∧
      ((caption_full a).length ≤ 4096 →
        WATERMARK <:+ payloadCaption (send_telegram_payload a))) := by
  have hsuf : WATERMARK <:+ caption_full a := List.suffix_append _ _
  constructor
  · intro himg
    obtain ⟨img, himg'⟩ := Option.isSome_iff_exists.mp himg
    have hp : payloadCaption (send_telegram_payload a) = (caption_full a).take 1024 := by
      rw [send_telegram_payload, himg']
      rfl
    rw [hp]
    refine ⟨by simp [List.length_take], ?_⟩
    intro hlen
    rw [List.take_of_length_le hlen]
    exact hsuf
  · intro himg
    have hp : payloadCaption (send_telegram_payload a) = (caption_full a).take 4096 := by
      rw [send_telegram_payload, himg]
      rfl
    rw [hp]
    refine ⟨by simp [List.length_take], ?_⟩
    intro hlen
    rw [List.take_of_length_le hlen]
    exact hsuf

/-- A short article with an image: its full caption fits in 1024 chars. -/
def c3short : NArticle := ⟨some "T", some "d", some "i"⟩

/-- Witness for the amended C3 statement. -/
theorem claim_C3_amended_witness :
    (payloadCaption (send_telegram_payload c3short)).length ≤ 1024 ∧
    WATERMARK <:+ payloadCaption (send_telegram_payload c3short) :=
  ⟨((claim_C3_amended c3short).1 (by decide)).1,
   ((claim_C3_amended c3short).1 (by decide)).2 (by decide)⟩

/-! ## Field Extractor: `dynamic_extract` and the article loop of `scrape_news`

MarketAlert.py lines 67-74 and 106-133.  An HTML article node is modelled
by the sequence of tags that `element.find(...)` can reach: `find(name)`
returns the first tag of that name.  A tag carries its stripped text
(`get_text(strip=True)`) and its attributes. -/

/-- A tag inside a scraped article element. -/
structure Tag where
  name : String
  text : String
  attrs : List (String × String)
deriving DecidableEq, Repr

/-- `element.find(tag_name)`: the first tag with the given name. -/
def findTag (el : List Tag) (tagName : String) : Option Tag :=
  el.find? (fun t => t.name == tagName)

/-- `target.get(attribute_name, '')`: attribute lookup with default. -/
def attrGet (t : Tag) (a : String) : String :=
  ((t.attrs.find? (fun p => p.1 == a)).map (fun p => p.2)).getD ""

/-- Python `str.strip()` at the `String` boundary. -/
def pyStripStr (s : String) : String := String.mk (pyStrip s.data)

/-- `dynamic_extract` of MarketAlert.py lines 67-74: walk the tag names in
priority order and return, for the FIRST PRESENT tag, its attribute value
(stripped) or text — even when that value is empty.  (The
`encode('utf-8', errors='replace').decode('utf-8')` round-trip is the
identity on well-formed text and is not modelled.) -/
def dynamic_extract (el : List Tag) : List String → Option String → String
  | [], _ => ""
  | n :: rest, attr =>
    match findTag el n with
    | some t =>
      match attr with
      | some a => pyStripStr (attrGet t a)
      | none => t.text
    | none => dynamic_extract el rest attr

/-- Modelled from the spec: the Field Extractor contract "return the first
non-empty match per field, in the given priority order" — stated for
comparison with `dynamic_extract`, which the code actually uses. -/
def dynamic_extract_firstNonEmpty (el : List Tag) : List String → Option String → String
  | [], _ => ""
  | n :: rest, attr =>
    match findTag el n with
    | some t =>
      let v := match attr with
        | some a => pyStripStr (attrGet t a)
        | none => t.text
      if v = "" then dynamic_extract_firstNonEmpty el rest attr else v
    | none => dynamic_extract_firstNonEmpty el rest attr

/-- Python `str.startswith`. -/
def pyStartsWith (s pre : String) : Bool := pre.data.isPrefixOf s.data

/-- A record extracted from one article element. -/
structure Extracted where
  title : String
  link : String
  description : String
deriving DecidableEq, Repr

/-- The per-article extraction of MarketAlert.py `scrape_news` lines
108-131: extract title/link/description, fall back from an empty title to
the description and then to `"No title"`, skip the record when title,
description or link is empty, and resolve relative links through `urljoin`
(an oracle parameter — the claims do not depend on its behaviour). -/
def extract_record_MA (urljoin : String → String → String) (url : String)
    (el : List Tag) : Option Extracted :=
  let title0 := dynamic_extract el ["h2", "h3", "a", "span"] none
  let link0 := dynamic_extract el ["a"] (some "href")
  let description := dynamic_extract el ["p", "span", "div"] none
  let title := if title0 = "" then (if description = "" then "No title" else description)
    else title0
  if title = "" ∨ description = "" ∨ link0 = "" then none
  else
    some ⟨title,
      if link0 ≠ "" ∧ ¬ pyStartsWith link0 "http" then urljoin url link0 else link0,
      description⟩

/-- An article node with an empty `h2`, a non-empty `h3` title, a link and
an empty `p` description. -/
def c5el : List Tag :=
  [⟨"h2", "", []⟩, ⟨"h3", "Real Title", []⟩,
   ⟨"a", "link text", [("href", "http://ex.com/p")]⟩, ⟨"p", "", []⟩]

/-- C5 counterexample: `dynamic_extract` returns the empty content of the
first PRESENT tag (`h2`), not the first non-empty match (`"Real Title"` in
`h3`); and the record is rejected although its fallback title (`"No
title"`) and its link are non-empty, because its description is empty. -/
theorem claim_C5_counterexample :
    dynamic_extract c5el ["h2", "h3", "a", "span"] none = "" ∧
    dynamic_extract_firstNonEmpty c5el ["h2", "h3", "a", "span"] none = "Real Title" ∧
    extract_record_MA (fun _ l => l) "http://base" c5el = none := by decide

/-- C5 amended: the extractor returns the content of the first present
candidate tag (possibly empty); the title falls back to the description and
then to "No title", so it is never empty after fallback; a record is
emitted if and only if its link AND its description are non-empty, and
every emitted record has a non-empty title equal to the fallback value. -/
theorem claim_C5_amended (urljoin : String → String → String) (url : String)
    (el : List Tag) :
    ((extract_record_MA urljoin url el).isSome = true ↔
      (dynamic_extract el ["a"] (some "href") ≠ "" ∧
       dynamic_extract el ["p", "span", "div"] none ≠ "")) ∧
    (∀ r, extract_record_MA urljoin url el = some r →
      r.title ≠ "" ∧ r.description ≠ "" ∧
      r.title = (if dynamic_extract el ["h2", "h3", "a", "span"] none = "" then
        dynamic_extract el ["p", "span", "div"] none
        else dynamic_extract el ["h2", "h3", "a", "span"] none)) := by
  set t0 := dynamic_extract el ["h2", "h3", "a", "span"] none with ht0
  set l0 := dynamic_extract el ["a"] (some "href") with hl0
  set d0 := dynamic_extract el ["p", "span", "div"] none with hd0
  have hrec : extract_record_MA urljoin url el =
      (let title := if t0 = "" then (if d0 = "" then "No title" else d0) else t0
       if title = "" ∨ d0 = "" ∨ l0 = "" then none
       else some ⟨title,
         if l0 ≠ "" ∧ ¬ pyStartsWith l0 "http" then urljoin url l0 else l0, d0⟩) := rfl
  by_cases hd : d0 = ""
  · have hnone : extract_record_MA urljoin url el = none := by
      rw [hrec]
      simp [hd]
    rw [hnone]
    constructor
    · constructor
      · intro h
        cases h
      · rintro ⟨-, hcontra⟩
        exact absurd hd hcontra
    · intro r hr
      cases hr
  · by_cases hl : l0 = ""
    · have hnone : extract_record_MA urljoin url el = none := by
        rw [hrec]
        rw [if_pos (Or.inr (Or.inr hl))]
      rw [hnone]
      constructor
      · constructor
        · intro h
          cases h
        · rintro ⟨hcontra, -⟩
          exact absurd hl hcontra
      · intro r hr
        cases hr
    · have htitle : (if t0 = "" then (if d0 = "" then "No title" else d0) else t0) ≠ "" := by
        by_cases h0 : t0 = ""
        · rw [if_pos h0, if_neg hd]
          exact hd
        · rw [if_neg h0]
          exact h0
      have hsome : extract_record_MA urljoin url el =
          some ⟨if t0 = "" then (if d0 = "" then "No title" else d0) else t0,
            if l0 ≠ "" ∧ ¬ pyStartsWith l0 "http" then urljoin url l0 else l0, d0⟩ := by
        rw [hrec]
        rw [if_neg (by push_neg; exact ⟨htitle, hd, hl⟩)]
      rw [hsome]
      refine ⟨⟨fun _ => ⟨hl, hd⟩, fun _ => rfl⟩, ?_⟩
      rintro r hr
      cases hr
      refine ⟨htitle, hd, ?_⟩
      show (if t0 = "" then (if d0 = "" then "No title" else d0) else t0) =
        (if t0 = "" then d0 else t0)
      rw [if_neg hd]

/-- An article node yielding a complete record. -/
def c5good : List Tag :=
  [⟨"h2", "Headline", []⟩, ⟨"a", "x", [("href", "http://ex.com/q")]⟩, ⟨"p", "Body", []⟩]

/-- Witness for the amended C5 statement. -/
theorem claim_C5_amended_witness :
    (extract_record_MA (fun _ l => l) "http://base" c5good).isSome = true ∧
    (⟨"Headline", "http://ex.com/q", "Body"⟩ : Extracted).title ≠ "" :=
  ⟨(claim_C5_amended (fun _ l => l) "http://base" c5good).1.mpr (by decide),
   ((claim_C5_amended (fun _ l => l) "http://base" c5good).2
     ⟨"Headline", "http://ex.com/q", "Body"⟩ (by decide)).1⟩

/-! ## Source Reader: `scrape_news` and its retry decorator

MarketAlert_New_Ex.py lines 73-118.  `scrape_news` is decorated with
`@retry(stop=stop_after_attempt(3), wait=wait_exponential(...))` (tenacity
retries only when the decorated function RAISES), while its body catches
every `requests.exceptions.RequestException` and returns `[]`. -/

/-- `dynamic_extract` of MarketAlert_New_Ex.py lines 63-71: like the
MarketAlert.py version, except that a present tag lacking the requested
attribute falls through to its text. -/
def dynamic_extract_Ex (el : List Tag) : List String → Option String → String
  | [], _ => ""
  | n :: rest, attr =>
    match findTag el n with
    | some t =>
      match attr with
      | some a =>
        match (t.attrs.find? (fun p => p.1 == a)).map (fun p => p.2) with
        | some v => pyStripStr v
        | none => t.text
      | none => t.text
    | none => dynamic_extract_Ex el rest attr

/-- The per-article extraction of MarketAlert_New_Ex.py lines 92-112: no
title fallback; records missing title, description or link are skipped. -/
def extract_record_Ex (urljoin : String → String → String) (url : String)
    (el : List Tag) : Option Extracted :=
  let title := dynamic_extract_Ex el ["h2", "h3", "a", "span"] none
  let link0 := dynamic_extract_Ex el ["a"] (some "href")
  let description := dynamic_extract_Ex el ["p", "span", "div"] none
  if title = "" ∨ description = "" ∨ link0 = "" then none
  else
    some ⟨title,
      if link0 ≠ "" ∧ ¬ pyStartsWith link0 "http" then urljoin url link0 else link0,
      description⟩

/-- One execution of the `scrape_news` body: `none` models the fetch
raising a `requests.exceptions.RequestException` (connection error,
timeout, or `raise_for_status` on a non-2xx response), which the body's
`except` clause converts into a normal return of `[]`; a successful fetch
yields the selected article elements, which are extracted one by one
(`continue` on incomplete records = `filterMap`).  The body only ever
raises if something outside that `except` clause fails, which the model
has no case for — hence the `Except` is always `ok`. -/
def scrape_news_body (urljoin : String → String → String) (url : String)
    (fetch : Option (List (List Tag))) : Except Unit (List Extracted) :=
  match fetch with
  | none => .ok []
  | some els => .ok (els.filterMap (extract_record_Ex urljoin url))

/-- The tenacity retry loop with a budget of remaining attempts: run the
attempt; on `ok` stop, on `error` retry while budget remains.  Returns the
result together with the number of attempts actually made. -/
def tenacity_run (f : Nat → Except Unit (List Extracted)) :
    Nat → Nat → Except Unit (List Extracted) × Nat
  | _, 0 => (.error (), 0)
  | i, 1 => (f i, 1)
  | i, budget + 2 =>
    match f i with
    | .ok a => (.ok a, 1)
    | .error _ =>
      let r := tenacity_run f (i + 1) (budget + 1)
      (r.1, r.2 + 1)

/-- `scrape_news` as deployed: the body under
`@retry(stop=stop_after_attempt(3))`, where attempt `i` observes the fetch
outcome `fetchSeq i`. -/
def scrape_news_model (urljoin : String → String → String) (url : String)
    (fetchSeq : Nat → Option (List (List Tag))) : Except Unit (List Extracted) × Nat :=
  tenacity_run (fun i => scrape_news_body urljoin url (fetchSeq i)) 0 3

/-- C4 evaluated on the code: whatever the fetch outcomes — in particular
when every fetch fails transiently — `scrape_news` makes exactly ONE
attempt and returns normally (no exception reaches the caller), because
the `except` clause inside the body hides every `RequestException` from the
tenacity decorator.  A failing first fetch yields `ok []` after one
attempt, not three attempts with backoff. -/
theorem claim_C4_single_attempt (urljoin : String → String → String) (url : String)
    (fetchSeq : Nat → Option (List (List Tag))) :
    (scrape_news_model urljoin url fetchSeq).2 = 1 ∧
    (∃ items, (scrape_news_model urljoin url fetchSeq).1 = .ok items) ∧
    (fetchSeq 0 = none → (scrape_news_model urljoin url fetchSeq).1 = .ok []) := by
  rcases h : fetchSeq 0 with - | els
  · refine ⟨?_, ⟨[], ?_⟩, fun _ => ?_⟩ <;>
      simp [scrape_news_model, tenacity_run, scrape_news_body, h]
  · refine ⟨?_, ⟨els.filterMap (extract_record_Ex urljoin url), ?_⟩, fun hc => ?_⟩
    · simp [scrape_news_model, tenacity_run, scrape_news_body, h]
    · simp [scrape_news_model, tenacity_run, scrape_news_body, h]
    · cases hc

/-- Witness for C4 at an always-failing fetch. -/
theorem claim_C4_single_attempt_witness :
    (scrape_news_model (fun _ l => l) "http://src" (fun _ => none)).2 = 1 ∧
    (scrape_news_model (fun _ l => l) "http://src" (fun _ => none)).1 = .ok [] :=
  ⟨(claim_C4_single_attempt (fun _ l => l) "http://src" (fun _ => none)).1,
   (claim_C4_single_attempt (fun _ l => l) "http://src" (fun _ => none)).2.2 rfl⟩

/-! ## Date Normalizer: `parse_date` (MarketAlert.py lines 36-54)

`parse_date` strips the `'Updated On :'` label, tries the three explicit
`strptime` formats `'%d %b %Y %H:%M:%S'`, `'%Y-%m-%dT%H:%M:%S'` and
`'%d/%m/%Y %H:%M'` (a `ValueError` moves to the next format), then
`dateutil.parser.parse(..., fuzzy=True)`, and on a final `ValueError`
returns `datetime.datetime.now()`.  The fuzzy parser is an external
library, taken as an oracle parameter (`none` models its `ParserError`,
which is a `ValueError`).  The `strptime` formats are embedded below:
directives match as in CPython `_strptime` (1- or 2-digit day/hour/minute,
exactly 4-digit year, case-insensitive month abbreviations and literals,
whitespace in the format matching a run of whitespace), the whole string
must be consumed, and the resulting values must form a valid datetime. -/

/-- A parsed `datetime.datetime` value. -/
structure PyDateTime where
  year : Nat
  month : Nat
  day : Nat
  hour : Nat
  minute : Nat
  second : Nat
deriving DecidableEq, Repr

def digitVal (c : Char) : Option Nat :=
  if 48 ≤ c.toNat ∧ c.toNat ≤ 57 then some (c.toNat - 48) else none

/-- `%d`/`%m`-style directive: a two-digit value in `[lo2, hi]`, else a
single digit in `[lo1, 9]` (CPython orders the two-digit alternatives
first; the surrounding literals never match a digit, so this greedy choice
agrees with the regex). -/
def parseNum2 (lo2 hi lo1 : Nat) : List Char → Option (Nat × List Char)
  | c1 :: c2 :: rest =>
    match digitVal c1, digitVal c2 with
    | some d1, some d2 =>
      if lo2 ≤ 10 * d1 + d2 ∧ 10 * d1 + d2 ≤ hi then some (10 * d1 + d2, rest)
      else if lo1 ≤ d1 then some (d1, c2 :: rest) else none
    | some d1, none => if lo1 ≤ d1 then some (d1, c2 :: rest) else none
    | none, _ => none
  | [c1] =>
    match digitVal c1 with
    | some d1 => if lo1 ≤ d1 then some (d1, []) else none
    | none => none
  | [] => none

/-- `%d`: day 1-31. -/
def parseDay (l : List Char) : Option (Nat × List Char) := parseNum2 1 31 1 l

/-- `%m`: month 1-12. -/
def parseMonthNum (l : List Char) : Option (Nat × List Char) := parseNum2 1 12 1 l

/-- `%H`: hour 0-23. -/
def parseHour (l : List Char) : Option (Nat × List Char) := parseNum2 0 23 0 l

/-- `%M` (and `%S` up to the leap-second values 60/61, which the
`datetime` constructor rejects anyway): 0-59. -/
def parseMinute (l : List Char) : Option (Nat × List Char) := parseNum2 0 59 0 l

/-- `%Y`: exactly four digits. -/
def parseYear4 : List Char → Option (Nat × List Char)
  | c1 :: c2 :: c3 :: c4 :: rest =>
    match digitVal c1, digitVal c2, digitVal c3, digitVal c4 with
    | some d1, some d2, some d3, some d4 =>
      some (1000 * d1 + 100 * d2 + 10 * d3 + d4, rest)
    | _, _, _, _ => none
  | _ => none

/-- Whitespace in a `strptime` format: one or more whitespace characters. -/
def parseWs : List Char → Option (Unit × List Char)
  | c :: rest => if pyWhitespace c then some ((), rest.dropWhile pyWhitespace) else none
  | [] => none

/-- A literal format character, case-insensitively (CPython compiles the
format with `re.IGNORECASE`). -/
def parseLit (ch : Char) : List Char → Option (Unit × List Char)
  | c :: rest => if lowerChar c == lowerChar ch then some ((), rest) else none
  | [] => none

/-- `%b`: the C-locale month abbreviations, case-insensitively. -/
def monthAbbrs : List (List Char × Nat) :=
  [("jan".data, 1), ("feb".data, 2), ("mar".data, 3), ("apr".data, 4),
   ("may".data, 5), ("jun".data, 6), ("jul".data, 7), ("aug".data, 8),
   ("sep".data, 9), ("oct".data, 10), ("nov".data, 11), ("dec".data, 12)]

def parseMonthAbbr (l : List Char) : Option (Nat × List Char) :=
  match monthAbbrs.find? (fun p => p.1 == pyLower (l.take 3)) with
  | some p => some (p.2, l.drop 3)
  | none => none

def isLeapYear (y : Nat) : Bool :=
  y % 4 == 0 && (y % 100 != 0 || y % 400 == 0)

def daysInMonth (y m : Nat) : Nat :=
  if m = 2 then (if isLeapYear y then 29 else 28)
  else if m = 4 ∨ m = 6 ∨ m = 9 ∨ m = 11 then 30 else 31

/-- The `datetime(...)` constructor: validates all field ranges
(`MINYEAR = 1`, `MAXYEAR = 9999`, day against the month length). -/
def mkPyDateTime (y mo d h mi s : Nat) : Option PyDateTime :=
  if 1 ≤ y ∧ y ≤ 9999 ∧ 1 ≤ mo ∧ mo ≤ 12 ∧ 1 ≤ d ∧ d ≤ daysInMonth y mo ∧
      h ≤ 23 ∧ mi ≤ 59 ∧ s ≤ 59 then
    some ⟨y, mo, d, h, mi, s⟩
  else none

/-- `strptime` with format `'%d %b %Y %H:%M:%S'`. -/
def parseFmt1 (l : List Char) : Option PyDateTime := do
  let (d, l) ← parseDay l
  let (_, l) ← parseWs l
  let (mo, l) ← parseMonthAbbr l
  let (_, l) ← parseWs l
  let (y, l) ← parseYear4 l
  let (_, l) ← parseWs l
  let (h, l) ← parseHour l
  let (_, l) ← parseLit ':' l
  let (mi, l) ← parseMinute l
  let (_, l) ← parseLit ':' l
  let (s, l) ← parseMinute l
  if l = [] then mkPyDateTime y mo d h mi s else none

/-- `strptime` with format `'%Y-%m-%dT%H:%M:%S'`. -/
def parseFmt2 (l : List Char) : Option PyDateTime := do
  let (y, l) ← parseYear4 l
  let (_, l) ← parseLit '-' l
  let (mo, l) ← parseMonthNum l
  let (_, l) ← parseLit '-' l
  let (d, l) ← parseDay l
  let (_, l) ← parseLit 'T' l
  let (h, l) ← parseHour l
  let (_, l) ← parseLit ':' l
  let (mi, l) ← parseMinute l
  let (_, l) ← parseLit ':' l
  let (s, l) ← parseMinute l
  if l = [] then mkPyDateTime y mo d h mi s else none

/-- `strptime` with format `'%d/%m/%Y %H:%M'` (seconds default to 0). -/
def parseFmt3 (l : List Char) : Option PyDateTime := do
  let (d, l) ← parseDay l
  let (_, l) ← parseLit '/' l
  let (mo, l) ← parseMonthNum l
  let (_, l) ← parseLit '/' l
  let (y, l) ← parseYear4 l
  let (_, l) ← parseWs l
  let (h, l) ← parseHour l
  let (_, l) ← parseLit ':' l
  let (mi, l) ← parseMinute l
  if l = [] then mkPyDateTime y mo d h mi 0 else none

/-- The `for fmt in [...]` loop: first format that parses wins. -/
def tryFormats (l : List Char) : Option PyDateTime :=
  (parseFmt1 l).orElse (fun _ => (parseFmt2 l).orElse (fun _ => parseFmt3 l))

/-- The label stripped before parsing. -/
def updatedOnLabel : List Char := "Updated On :".data

/-- Python `str.replace(label, '')`, fuel-indexed to stay structural: on a
match, skip the label and continue after it; otherwise keep the head and
continue.  The fuel is the string length, which always suffices. -/
def removeLabelAux : Nat → List Char → List Char
  | 0, l => l
  | fuel + 1, l =>
    if updatedOnLabel.isPrefixOf l then removeLabelAux fuel (l.drop 12)
    else
      match l with
      | [] => []
      | c :: t => c :: removeLabelAux fuel t

def removeLabel (l : List Char) : List Char := removeLabelAux l.length l

/-- `date_str.replace('Updated On :', '').strip()`. -/
def prepDate (l : List Char) : List Char := pyStrip (removeLabel l)

/-- `parse_date` of MarketAlert.py: label strip, explicit formats, fuzzy
fallback, current instant on total failure.  Total by construction — every
`ValueError` path is caught by the code (`continue` in the loop, the outer
`except ValueError` for the fuzzy parser). -/
def parse_date_MA (now : PyDateTime) (fuzzy : List Char → Option PyDateTime)
    (l : List Char) : PyDateTime :=
  match tryFormats (prepDate l) with
  | some d => d
  | none =>
    match fuzzy (prepDate l) with
    | some d => d
    | none => now

example : prepDate "Updated On : 05 Jan 2024 10:30:00".data = "05 Jan 2024 10:30:00".data := by
  decide

example : parseFmt1 "05 Jan 2024 10:30:00".data = some ⟨2024, 1, 5, 10, 30, 0⟩ := by decide

example : parseFmt2 "2024-01-05T10:30:00".data = some ⟨2024, 1, 5, 10, 30, 0⟩ := by decide

example : parseFmt3 "5/1/2024 10:30".data = some ⟨2024, 1, 5, 10, 30, 0⟩ := by decide

example : parseFmt1 "30 Feb 2024 10:30:00".data = none := by decide

/-- C7: `parse_date` is total (it returns a `PyDateTime` for every string,
by construction), the explicit formats are tried first on the
label-stripped string (the fuzzy parser is not consulted when one
matches), the fuzzy parse is used next, and when both tiers fail the
current ingestion instant is returned — no exception escapes. -/
theorem claim_C7_parse_date (now : PyDateTime) (fuzzy : List Char → Option PyDateTime)
    (l : List Char) :
    (∀ d, tryFormats (prepDate l) = some d → parse_date_MA now fuzzy l = d) ∧
    (tryFormats (prepDate l) = none →
      ∀ d, fuzzy (prepDate l) = some d → parse_date_MA now fuzzy l = d) ∧
    (tryFormats (prepDate l) = none → fuzzy (prepDate l) = none →
      parse_date_MA now fuzzy l = now) := by
  refine ⟨?_, ?_, ?_⟩
  · intro d hd
    rw [parse_date_MA, hd]
  · intro hn d hd
    rw [parse_date_MA, hn, hd]
  · intro hn hf
    rw [parse_date_MA, hn, hf]

/-- Witness for C7: the labelled date is parsed by the first format with
the fuzzy oracle never consulted, and an unparseable string falls back to
`now` under a failing fuzzy oracle. -/
theorem claim_C7_parse_date_witness :
    parse_date_MA ⟨2099, 1, 1, 0, 0, 0⟩ (fun _ => none)
      "Updated On : 05 Jan 2024 10:30:00".data = ⟨2024, 1, 5, 10, 30, 0⟩ ∧
    parse_date_MA ⟨2099, 1, 1, 0, 0, 0⟩ (fun _ => none) "garbage".data =
      ⟨2099, 1, 1, 0, 0, 0⟩ :=
  ⟨(claim_C7_parse_date ⟨2099, 1, 1, 0, 0, 0⟩ (fun _ => none)
      "Updated On : 05 Jan 2024 10:30:00".data).1 ⟨2024, 1, 5, 10, 30, 0⟩ (by decide),
   (claim_C7_parse_date ⟨2099, 1, 1, 0, 0, 0⟩ (fun _ => none) "garbage".data).2.2
     (by decide) rfl⟩

/-! ## Deduplication Store: `read_sent_ids`

MarketAlert_New_Ex.py lines 190-199 and MarketAlert.py lines 223-233.
The code runs `set(json.load(file))`: `json.load` failures
(`json.JSONDecodeError`) are caught and yield the empty set, but `set(...)`
applied to a successfully decoded non-iterable value (a number, boolean or
null) raises a `TypeError` that nothing catches. -/

/-- A decoded JSON value. -/
inductive JVal where
  | jnull : JVal
  | jbool : Bool → JVal
  | jnum : Int → JVal
  | jstr : String → JVal
  | jarr : List JVal → JVal
  | jobj : List (String × JVal) → JVal

/-- Hashability of a decoded JSON value in Python: `json` decodes arrays to
lists and objects to dicts, both unhashable; null, booleans, numbers and
strings are hashable. -/
def jvalHashable : JVal → Bool
  | .jarr _ => false
  | .jobj _ => false
  | .jnull => true
  | .jbool _ => true
  | .jnum _ => true
  | .jstr _ => true

/-- Python `set(x)` on a decoded JSON value: an array yields its elements
provided every element is hashable (`set([[]])` raises
`TypeError: unhashable type`); a string yields its characters, an object
its keys (strings, always hashable); numbers, booleans and null are not
iterable, so `set(...)` raises `TypeError` (`none`).  The result list
models the set up to membership. -/
def pySetOfJson : JVal → Option (List JVal)
  | .jarr xs => if xs.all jvalHashable then some xs else none
  | .jstr s => some (s.data.map (fun c => JVal.jstr (String.mk [c])))
  | .jobj fields => some (fields.map (fun f => JVal.jstr f.1))
  | .jnull => none
  | .jbool _ => none
  | .jnum _ => none

/-- The state of the identity-store file. -/
inductive StoreFile where
  | absent : StoreFile
  | malformed : StoreFile
  | content : JVal → StoreFile

/-- `read_sent_ids`: missing file or undecodable content give the empty
set (with a logged warning); decodable content is passed to `set(...)`,
whose `TypeError` on non-iterable values propagates (`Except.error`). -/
def read_sent_ids (f : StoreFile) : Except Unit (List JVal) :=
  match f with
  | .absent => .ok []
  | .malformed => .ok []
  | .content v =>
    match pySetOfJson v with
    | some xs => .ok xs
    | none => .error ()

/-- C8 counterexample: a file whose content is the valid JSON value `42` is
parseable, so by the claim the stored identity set should come back — but
`set(42)` raises `TypeError`, which `read_sent_ids` does not catch, so the
call errors instead of returning a set. -/
theorem claim_C8_counterexample :
    read_sent_ids (StoreFile.content (JVal.jnum 42)) = Except.error () := rfl

/-- C8 amended: an absent file and undecodable content yield the empty set
without raising; a decoded JSON array of hashable elements (strings,
numbers, booleans, null) yields its element set; but content that is valid
JSON and not usable by `set(...)` — a non-iterable value (number, boolean,
null) or an array containing an unhashable element (a nested array or
object) — makes `set(...)` raise a `TypeError` that propagates to the
caller. -/
theorem claim_C8_amended (f : StoreFile) :
    (f = StoreFile.absent → read_sent_ids f = Except.ok []) ∧
    (f = StoreFile.malformed → read_sent_ids f = Except.ok []) ∧
    (∀ xs, f = StoreFile.content (JVal.jarr xs) → xs.all jvalHashable = true →
      read_sent_ids f = Except.ok xs) ∧
    (∀ xs, f = StoreFile.content (JVal.jarr xs) → xs.all jvalHashable = false →
      read_sent_ids f = Except.error ()) := by
  refine ⟨?_, ?_, ?_, ?_⟩
  · rintro rfl
    rfl
  · rintro rfl
    rfl
  · rintro xs rfl hh
    rw [read_sent_ids]
    show (match pySetOfJson (JVal.jarr xs) with
      | some xs => Except.ok xs
      | none => Except.error ()) = Except.ok xs
    rw [pySetOfJson, if_pos hh]
  · rintro xs rfl hh
    rw [read_sent_ids]
    show (match pySetOfJson (JVal.jarr xs) with
      | some xs => Except.ok xs
      | none => Except.error ()) = Except.error ()
    rw [pySetOfJson, if_neg (by rw [hh]; exact Bool.false_ne_true)]

/-- Witness for the amended C8 statement: a corrupt file degrades to the
empty set, an array of strings comes back as the stored set, and an array
containing a nested (unhashable) array raises. -/
theorem claim_C8_amended_witness :
    read_sent_ids StoreFile.malformed = Except.ok [] ∧
    read_sent_ids (StoreFile.content (JVal.jarr [JVal.jstr "http://ex.com/a"])) =
      Except.ok [JVal.jstr "http://ex.com/a"] ∧
    read_sent_ids (StoreFile.content (JVal.jarr [JVal.jarr []])) = Except.error () :=
  ⟨(claim_C8_amended StoreFile.malformed).2.1 rfl,
   (claim_C8_amended (StoreFile.content (JVal.jarr [JVal.jstr "http://ex.com/a"]))).2.2.1
     [JVal.jstr "http://ex.com/a"] rfl rfl,
   (claim_C8_amended (StoreFile.content (JVal.jarr [JVal.jarr []]))).2.2.2
     [JVal.jarr []] rfl rfl⟩

/-! ## `clean_articles` (NewMA.py lines 60-68, NewNews.py lines 143-151)

Both copies are identical: keep an article when its stripped title is
non-empty and not seen before, remembering stripped titles in a set. -/

/-- An article as passed to `clean_articles`: `title` models
`a.get('title', '')` (an absent key reads as `''`); the remaining fields
stand for the rest of the record, so that two articles may differ while
sharing a title. -/
structure RArticle where
  title : String
  description : String
  url : String
deriving DecidableEq, Repr

/-- The stripped title `a.get('title', '').strip()`. -/
def rtitle (a : RArticle) : String := pyStripStr a.title

/-- The loop of `clean_articles` with its `seen_titles` accumulator. -/
def cleanGo (seen : List String) : List RArticle → List RArticle
  | [] => []
  | a :: rest =>
    if rtitle a ≠ "" ∧ rtitle a ∉ seen then a :: cleanGo (rtitle a :: seen) rest
    else cleanGo seen rest

/-- `clean_articles`. -/
def clean_articles (articles : List RArticle) : List RArticle := cleanGo [] articles

theorem cleanGo_sublist (seen : List String) (l : List RArticle) :
    List.Sublist (cleanGo seen l) l := by
  induction l generalizing seen with
  | nil => simp [cleanGo]
  | cons a rest ih =>
    rw [cleanGo]
    split
    · exact List.Sublist.cons₂ a (ih _)
    · exact List.Sublist.cons a (ih _)

theorem cleanGo_mem {seen : List String} {l : List RArticle} {a : RArticle}
    (h : a ∈ cleanGo seen l) : rtitle a ≠ "" ∧ rtitle a ∉ seen := by
  induction l generalizing seen with
  | nil => simp [cleanGo] at h
  | cons b rest ih =>
    rw [cleanGo] at h
    split at h
    · rcases List.mem_cons.mp h with rfl | h'
      · assumption
      · have := ih h'
        exact ⟨this.1, fun hm => this.2 (List.mem_cons_of_mem _ hm)⟩
    · exact ih h

theorem cleanGo_pairwise (seen : List String) (l : List RArticle) :
    (cleanGo seen l).Pairwise (fun a b => rtitle a ≠ rtitle b) := by
  induction l generalizing seen with
  | nil => simp [cleanGo]
  | cons a rest ih =>
    rw [cleanGo]
    split
    · refine List.pairwise_cons.mpr ⟨?_, ih _⟩
      intro b hb
      have := (cleanGo_mem hb).2
      intro he
      exact this (by rw [← he]; exact List.mem_cons_self _ _)
    · exact ih _

theorem cleanGo_keeps_first (seen : List String) (l₁ : List RArticle) (a : RArticle)
    (l₂ : List RArticle) (hne : rtitle a ≠ "") (hs : rtitle a ∉ seen)
    (hfirst : ∀ b ∈ l₁, rtitle b ≠ rtitle a) :
    a ∈ cleanGo seen (l₁ ++ a :: l₂) := by
  induction l₁ generalizing seen with
  | nil =>
    rw [List.nil_append, cleanGo, if_pos ⟨hne, hs⟩]
    exact List.mem_cons_self _ _
  | cons b l₁ ih =>
    rw [List.cons_append, cleanGo]
    split
    · refine List.mem_cons_of_mem b (ih _ ?_ ?_)
      · intro hm
        rcases List.mem_cons.mp hm with he | hm'
        · exact hfirst b (List.mem_cons_self _ _) he.symm
        · exact hs hm'
      · exact fun c hc => hfirst c (List.mem_cons_of_mem _ hc)
    · exact ih _ hs (fun c hc => hfirst c (List.mem_cons_of_mem _ hc))

/-- C10: `clean_articles` returns a subsequence of its input in which every
kept article has a non-empty stripped title, kept stripped titles are
pairwise distinct, and the first article of the input bearing any given
non-empty (stripped) title is kept — later articles with the same stripped
title, and articles with an empty stripped title, are dropped. -/
theorem claim_C10_clean_articles (l : List RArticle) :
    List.Sublist (clean_articles l) l ∧
    (∀ a ∈ clean_articles l, rtitle a ≠ "") ∧
    (clean_articles l).Pairwise (fun a b => rtitle a ≠ rtitle b) ∧
    (∀ l₁ a l₂, l = l₁ ++ a :: l₂ → rtitle a ≠ "" →
      (∀ b ∈ l₁, rtitle b ≠ rtitle a) → a ∈ clean_articles l) := by
  refine ⟨cleanGo_sublist [] l, fun a ha => (cleanGo_mem ha).1, cleanGo_pairwise [] l, ?_⟩
  rintro l₁ a l₂ rfl hne hfirst
  exact cleanGo_keeps_first [] l₁ a l₂ hne (by simp) hfirst

/-- `clean_articles` at work: the duplicate stripped title and the blank
title are dropped, the first occurrence is kept with its own fields. -/
theorem clean_articles_example :
    clean_articles [⟨"T", "d1", "u1"⟩, ⟨" T ", "d2", "u2"⟩, ⟨"  ", "d3", "u3"⟩,
      ⟨"S", "d4", "u4"⟩] = [⟨"T", "d1", "u1"⟩, ⟨"S", "d4", "u4"⟩] := by decide

/-- Witness for C10 at a concrete list. -/
theorem claim_C10_clean_articles_witness :
    (⟨"T", "d1", "u1"⟩ : RArticle) ∈
      clean_articles [⟨"T", "d1", "u1"⟩, ⟨" T ", "d2", "u2"⟩] :=
  (claim_C10_clean_articles [⟨"T", "d1", "u1"⟩, ⟨" T ", "d2", "u2"⟩]).2.2.2
    [] ⟨"T", "d1", "u1"⟩ [⟨" T ", "d2", "u2"⟩] rfl (by decide) (by simp)

end MarketAlert
